import Mathlib

/-!
# Verification of `intuit-build-challenge` (producer/consumer pipeline and sales aggregator)

This file gives a shallow embedding of the two components of the repository:

* `src/assignment1/producer_consumer.py` — class `ProducerConsumer`: one producer
  thread draining a source list into a bounded `queue.Queue`, one consumer thread
  draining the queue into a destination list, with a `None` sentinel signalling
  end-of-stream.
* `src/assignment2/sales_analysis.py` — class `SalesAnalysis`: sequential
  group-by/reduce queries over a list of CSV rows, with a lenient
  `_to_numeric` parse-or-zero conversion.

Python values that can be `None` are embedded as `Option α`: `none` is Python's
`None`, `some a` is any other value.  Machine floats are modelled as exact
rationals `ℚ` (the spec's "within floating-point tolerance" becomes exact
equality in this model).
-/

namespace PC

/-- Python values travelling through the pipeline: `none` is Python's `None`
(the sentinel), `some a` is any other payload value. -/
abbrev V (α : Type) := Option α

/-- Which of the two threads the scheduler lets run one loop iteration. -/
inductive Tid where
  | prod : Tid
  | cons : Tid
deriving DecidableEq, Repr

/-- The shared state of a `ProducerConsumer` run.

* `callerSource` models the caller's original list object passed to
  `__init__` as `source_data`; the constructor copies it
  (`self.source_container = list(source_data)`), so no later statement of the
  class ever touches it.
* `source` is `self.source_container`, `queue` the buffer of
  `self.shared_queue` (FIFO: put appends at the tail, get removes the head),
  `dest` is `self.destination_container`.
* `produced`/`consumed` are `self.items_produced` / `self.items_consumed`.
* `prodDone`/`consDone` record that the corresponding thread function has
  returned.
* `cap` is `max_queue_size`; following Python's `queue.Queue`, a value `≤ 0`
  (here: `0`, since `cap : ℕ`) means the queue is unbounded. -/
structure Config (α : Type) where
  callerSource : List (V α)
  source : List (V α)
  queue : List (V α)
  dest : List (V α)
  produced : Nat
  consumed : Nat
  prodDone : Bool
  consDone : Bool
  cap : Nat
deriving DecidableEq, Repr

/-- `ProducerConsumer.__init__(source_data, max_queue_size)`: copies the source
list, creates an empty destination and an empty queue of capacity
`max_queue_size`, zeroes both counters.  There is no validation of
`max_queue_size` in the source. -/
def init (source_data : List (V α)) (max_queue_size : Nat) : Config α :=
  { callerSource := source_data
    source := source_data
    queue := []
    dest := []
    produced := 0
    consumed := 0
    prodDone := false
    consDone := false
    cap := max_queue_size }

/-- `queue.Queue.put` can complete iff the queue is unbounded (`maxsize ≤ 0`)
or strictly below capacity; otherwise the producer blocks. -/
def putEnabled (cfg : Config α) : Bool :=
  cfg.cap == 0 || cfg.queue.length < cfg.cap

/-- One loop iteration of `ProducerConsumer.producer`: if the source is
non-empty, `pop(0)` the head, `put` it (only when a slot is free, else the
thread stays blocked and nothing happens), and increment `items_produced`;
if the source is exhausted, `put(None)` (the sentinel, also subject to
blocking) and return.  A finished producer does nothing. -/
def prodStep (cfg : Config α) : Config α :=
  if cfg.prodDone then cfg
  else
    match cfg.source with
    | item :: rest =>
        if putEnabled cfg then
          { cfg with
              source := rest
              queue := cfg.queue ++ [item]
              produced := cfg.produced + 1 }
        else cfg
    | [] =>
        if putEnabled cfg then
          { cfg with queue := cfg.queue ++ [none], prodDone := true }
        else cfg

/-- One loop iteration of `ProducerConsumer.consumer`: `get()` blocks while the
queue is empty (nothing happens); on `None` the loop breaks; otherwise the item
is appended to `destination_container` and `items_consumed` incremented.
A finished consumer does nothing. -/
def consStep (cfg : Config α) : Config α :=
  if cfg.consDone then cfg
  else
    match cfg.queue with
    | [] => cfg
    | item :: rest =>
        match item with
        | none => { cfg with queue := rest, consDone := true }
        | some a =>
            { cfg with
                queue := rest
                dest := cfg.dest ++ [some a]
                consumed := cfg.consumed + 1 }

/-- One scheduler step: the chosen thread runs one loop iteration (a blocked
or finished thread makes no progress). -/
def step (cfg : Config α) (t : Tid) : Config α :=
  match t with
  | .prod => prodStep cfg
  | .cons => consStep cfg

/-- Run the pipeline under an arbitrary finite interleaving of the two
threads.  Every execution of the Python program corresponds to some schedule. -/
def run (cfg : Config α) (sched : List Tid) : Config α :=
  sched.foldl step cfg

theorem prodStep_done (cfg : Config α) (hp : cfg.prodDone = true) :
    prodStep cfg = cfg := by
  unfold prodStep
  rw [hp]
  rfl

theorem prodStep_pop (cfg : Config α) (hp : cfg.prodDone = false)
    (x : V α) (rest : List (V α)) (hs : cfg.source = x :: rest)
    (hput : putEnabled cfg = true) :
    prodStep cfg =
      { cfg with source := rest, queue := cfg.queue ++ [x],
                 produced := cfg.produced + 1 } := by
  unfold prodStep
  rw [hp, hs]
  simp [hput]

theorem prodStep_sentinel (cfg : Config α) (hp : cfg.prodDone = false)
    (hs : cfg.source = []) (hput : putEnabled cfg = true) :
    prodStep cfg = { cfg with queue := cfg.queue ++ [none], prodDone := true } := by
  unfold prodStep
  rw [hp, hs]
  simp [hput]

theorem prodStep_blocked (cfg : Config α) (hput : putEnabled cfg = false) :
    prodStep cfg = cfg := by
  unfold prodStep
  cases hp : cfg.prodDone with
  | true => rfl
  | false =>
      cases hs : cfg.source <;> simp [hput]

theorem consStep_done (cfg : Config α) (hc : cfg.consDone = true) :
    consStep cfg = cfg := by
  unfold consStep
  rw [hc]
  rfl

theorem consStep_empty (cfg : Config α) (hq : cfg.queue = []) :
    consStep cfg = cfg := by
  unfold consStep
  rw [hq]
  cases cfg.consDone <;> rfl

theorem consStep_sentinel (cfg : Config α) (hc : cfg.consDone = false)
    (rest : List (V α)) (hq : cfg.queue = none :: rest) :
    consStep cfg = { cfg with queue := rest, consDone := true } := by
  unfold consStep
  rw [hc, hq]
  rfl

theorem consStep_item (cfg : Config α) (hc : cfg.consDone = false)
    (a : α) (rest : List (V α)) (hq : cfg.queue = some a :: rest) :
    consStep cfg =
      { cfg with queue := rest, dest := cfg.dest ++ [some a],
                 consumed := cfg.consumed + 1 } := by
  unfold consStep
  rw [hc, hq]
  rfl

/-- `wait_completion()` has returned: both thread functions finished. -/
def Completed (cfg : Config α) : Prop :=
  cfg.prodDone = true ∧ cfg.consDone = true

instance (cfg : Config α) : Decidable (Completed cfg) :=
  inferInstanceAs (Decidable (cfg.prodDone = true ∧ cfg.consDone = true))

/-- The run-long invariant of a pipeline whose source `S` contains no `None`
(the sentinel value).  Three phases: both threads running (every item of `S`
is in exactly one of destination/queue/source, in order), producer finished
(sentinel at the tail of the queue), both finished (everything transferred). -/
def Inv (S : List (V α)) (cfg : Config α) : Prop :=
  cfg.callerSource = S ∧
  ((cfg.prodDone = false ∧ cfg.consDone = false ∧
      cfg.dest ++ cfg.queue ++ cfg.source = S ∧
      cfg.produced = cfg.dest.length + cfg.queue.length ∧
      cfg.consumed = cfg.dest.length) ∨
   (cfg.prodDone = true ∧ cfg.consDone = false ∧
      cfg.source = [] ∧
      (∃ q, cfg.queue = q ++ [none] ∧ cfg.dest ++ q = S ∧
        cfg.produced = S.length ∧ cfg.consumed = cfg.dest.length)) ∨
   (cfg.prodDone = true ∧ cfg.consDone = true ∧
      cfg.queue = [] ∧ cfg.dest = S ∧
      cfg.produced = S.length ∧ cfg.consumed = S.length))

theorem inv_init (S : List (V α)) (c : Nat) : Inv S (init S c) := by
  refine ⟨rfl, Or.inl ?_⟩
  simp [init]

theorem inv_step (S : List (V α)) (hS : none ∉ S) (cfg : Config α)
    (h : Inv S cfg) (t : Tid) : Inv S (step cfg t) := by
  obtain ⟨cs, src, qu, dst, p, c, pd, cd, cap⟩ := cfg
  obtain ⟨hcs, hA | hB | hC⟩ := h
  · -- both threads still running
    obtain ⟨hp, hc, hacc, hprod, hcons⟩ := hA
    simp only at hcs hp hc hacc hprod hcons
    subst hp hc hcs
    cases t with
    | prod =>
        cases src with
        | cons x rest =>
            by_cases hput : putEnabled ⟨cs, x :: rest, qu, dst, p, c, false, false, cap⟩ = true
            · simp only [step, prodStep, hput, if_true, reduceIte]
              refine ⟨rfl, Or.inl ⟨rfl, rfl, ?_, ?_, hcons⟩⟩
              · simpa using hacc
              · show p + 1 = dst.length + (qu ++ [x]).length
                simp only [List.length_append, List.length_cons, List.length_nil]
                omega
            · simp only [step, prodStep, hput, reduceIte, Bool.false_eq_true]
              exact ⟨rfl, Or.inl ⟨rfl, rfl, hacc, hprod, hcons⟩⟩
        | nil =>
            simp only [List.append_nil] at hacc
            by_cases hput : putEnabled ⟨cs, [], qu, dst, p, c, false, false, cap⟩ = true
            · simp only [step, prodStep, hput, if_true, reduceIte]
              refine ⟨rfl, Or.inr (Or.inl ⟨rfl, rfl, rfl, qu, rfl, hacc, ?_, hcons⟩)⟩
              rw [← hacc]; simpa using hprod
            · simp only [step, prodStep, hput, reduceIte, Bool.false_eq_true]
              exact ⟨rfl, Or.inl ⟨rfl, rfl, by simpa using hacc, hprod, hcons⟩⟩
    | cons =>
        cases qu with
        | nil =>
            exact ⟨rfl, Or.inl ⟨rfl, rfl, hacc, hprod, hcons⟩⟩
        | cons y rest =>
            have hy : y ≠ none := by
              intro hy
              apply hS
              rw [← hacc, hy]
              simp
            cases y with
            | none => exact absurd rfl hy
            | some a =>
                simp only [step, consStep, reduceIte]
                refine ⟨rfl, Or.inl ⟨rfl, rfl, ?_, ?_, ?_⟩⟩
                · simpa [List.append_assoc] using hacc
                · simp at hprod ⊢; omega
                · simp [hcons]
  · -- producer finished, consumer running
    obtain ⟨hp, hc, hsrc, q, hq, hdq, hprod, hcons⟩ := hB
    simp only at hcs hp hc hsrc hq hdq hprod hcons
    subst hp hc hcs hsrc hq
    cases t with
    | prod =>
        exact ⟨rfl, Or.inr (Or.inl ⟨rfl, rfl, rfl, q, rfl, hdq, hprod, hcons⟩)⟩
    | cons =>
        cases q with
        | nil =>
            simp only [List.nil_append] at hdq ⊢
            simp only [step, consStep, reduceIte]
            refine ⟨rfl, Or.inr (Or.inr ⟨rfl, rfl, rfl, by simpa using hdq, hprod, ?_⟩)⟩
            rw [hcons, ← hdq]; simp
        | cons y q' =>
            have hy : y ≠ none := by
              intro hy
              apply hS
              rw [← hdq, hy]
              simp
            cases y with
            | none => exact absurd rfl hy
            | some a =>
                simp only [step, consStep, reduceIte, List.cons_append]
                refine ⟨rfl, Or.inr (Or.inl ⟨rfl, rfl, rfl, q', rfl, ?_, hprod, by simp [hcons]⟩)⟩
                simpa [List.append_assoc] using hdq
  · -- both finished: no step changes anything
    obtain ⟨hp, hc, hqe, hdest, hprod, hcons⟩ := hC
    simp only at hcs hp hc hqe hdest hprod hcons
    subst hp hc hcs hqe hdest
    cases t with
    | prod => exact ⟨rfl, Or.inr (Or.inr ⟨rfl, rfl, rfl, rfl, hprod, hcons⟩)⟩
    | cons => exact ⟨rfl, Or.inr (Or.inr ⟨rfl, rfl, rfl, rfl, hprod, hcons⟩)⟩

theorem inv_run (S : List (V α)) (hS : none ∉ S) (cfg : Config α)
    (h : Inv S cfg) (sched : List Tid) : Inv S (run cfg sched) := by
  induction sched generalizing cfg with
  | nil => exact h
  | cons t ts ih => exact ih _ (inv_step S hS cfg h t)

/-- Full correctness of a completed run on a sentinel-free source: the
destination equals the source in order, both counters equal its length,
the queue is empty, and the caller's list is untouched. -/
theorem pipeline_correct (S : List (V α)) (c : Nat) (sched : List Tid)
    (hS : none ∉ S) (hdone : Completed (run (init S c) sched)) :
    (run (init S c) sched).dest = S ∧
    (run (init S c) sched).produced = S.length ∧
    (run (init S c) sched).consumed = S.length ∧
    (run (init S c) sched).queue = [] ∧
    (run (init S c) sched).callerSource = S := by
  have h := inv_run S hS (init S c) (inv_init S c) sched
  obtain ⟨hd1, hd2⟩ := hdone
  obtain ⟨hcs, hA | hB | hC⟩ := h
  · rw [hA.1] at hd1; exact absurd hd1 (by simp)
  · rw [hB.2.1] at hd2; exact absurd hd2 (by simp)
  · exact ⟨hC.2.2.2.1, hC.2.2.2.2.1, hC.2.2.2.2.2, hC.2.2.1, hcs⟩

theorem putEnabled_empty (cfg : Config α) (h : cfg.queue = []) :
    putEnabled cfg = true := by
  simp only [putEnabled, h, List.length_nil]
  rcases Nat.eq_zero_or_pos cfg.cap with h0 | h0 <;> simp [h0]

/-- A round-robin schedule: `n` alternations of one producer iteration and one
consumer iteration. -/
def pairSched : Nat → List Tid
  | 0 => []
  | n + 1 => .prod :: .cons :: pairSched n

/-- Under the round-robin schedule the pipeline transfers everything and both
threads terminate, for any capacity (the queue never holds more than one item,
and an empty queue always accepts a `put`, whatever `maxsize` is). -/
theorem pcDrain (src : List (V α)) (hS : none ∉ src) :
    ∀ (cs dst : List (V α)) (p c cap : Nat),
    run ⟨cs, src, [], dst, p, c, false, false, cap⟩ (pairSched (src.length + 1)) =
      ⟨cs, [], [], dst ++ src, p + src.length, c + src.length, true, true, cap⟩ := by
  induction src with
  | nil =>
      intro cs dst p c cap
      show run _ [Tid.prod, Tid.cons] = _
      have h1 : putEnabled ⟨cs, [], [], dst, p, c, false, false, cap⟩ = true :=
        putEnabled_empty _ rfl
      have h2 : step ⟨cs, [], [], dst, p, c, false, false, cap⟩ Tid.prod =
          ⟨cs, [], [none], dst, p, c, true, false, cap⟩ := by
        simp [step, prodStep, h1]
      have h3 : step (⟨cs, [], [none], dst, p, c, true, false, cap⟩ : Config α) Tid.cons =
          ⟨cs, [], [], dst, p, c, true, true, cap⟩ := by
        simp [step, consStep]
      show run (step (step _ Tid.prod) Tid.cons) (pairSched 0) = _
      rw [h2, h3]
      simp [run, pairSched]
  | cons x rest ih =>
      intro cs dst p c cap
      have hx : x ≠ none := fun h => hS (h ▸ List.mem_cons_self x rest)
      obtain ⟨a, rfl⟩ : ∃ a, x = some a := Option.ne_none_iff_exists'.mp hx
      have hS' : none ∉ rest := fun h => hS (List.mem_cons_of_mem _ h)
      have h1 : putEnabled ⟨cs, some a :: rest, [], dst, p, c, false, false, cap⟩ = true :=
        putEnabled_empty _ rfl
      show run _ (Tid.prod :: Tid.cons :: pairSched (rest.length + 1)) = _
      have h2 : step ⟨cs, some a :: rest, [], dst, p, c, false, false, cap⟩ Tid.prod =
          ⟨cs, rest, [some a], dst, p + 1, c, false, false, cap⟩ := by
        simp [step, prodStep, h1]
      have h3 : step (⟨cs, rest, [some a], dst, p + 1, c, false, false, cap⟩ : Config α)
          Tid.cons = ⟨cs, rest, [], dst ++ [some a], p + 1, c + 1, false, false, cap⟩ := by
        simp [step, consStep]
      show run (step (step _ Tid.prod) Tid.cons) (pairSched (rest.length + 1)) = _
      rw [h2, h3, ih hS' cs (dst ++ [some a]) (p + 1) (c + 1) cap]
      have harr : (dst ++ [some a]) ++ rest = dst ++ some a :: rest := by
        rw [List.append_assoc]
        rfl
      have hp' : p + 1 + rest.length = p + (some a :: rest).length := by
        simp only [List.length_cons]
        omega
      have hc' : c + 1 + rest.length = c + (some a :: rest).length := by
        simp only [List.length_cons]
        omega
      rw [harr, hp', hc']

/-- No step of either thread touches the caller's original list object. -/
theorem step_callerSource (cfg : Config α) (t : Tid) :
    (step cfg t).callerSource = cfg.callerSource := by
  cases t with
  | prod =>
      show (prodStep cfg).callerSource = _
      unfold prodStep
      repeat' split
      all_goals rfl
  | cons =>
      show (consStep cfg).callerSource = _
      unfold consStep
      repeat' split
      all_goals rfl

/-- No step changes the configured capacity. -/
theorem step_cap (cfg : Config α) (t : Tid) : (step cfg t).cap = cfg.cap := by
  cases t with
  | prod =>
      show (prodStep cfg).cap = _
      unfold prodStep
      repeat' split
      all_goals rfl
  | cons =>
      show (consStep cfg).cap = _
      unfold consStep
      repeat' split
      all_goals rfl

/-- Once the producer function has returned, the internal source copy has been
fully drained. -/
def SourceDrained (cfg : Config α) : Prop :=
  cfg.prodDone = true → cfg.source = []

theorem step_sourceDrained (cfg : Config α) (t : Tid) (h : SourceDrained cfg) :
    SourceDrained (step cfg t) := by
  obtain ⟨cs, src, qu, dst, p, c, pd, cd, cap⟩ := cfg
  cases t with
  | prod =>
      cases pd with
      | true => exact h
      | false =>
          cases src with
          | nil =>
              simp only [step, prodStep, reduceIte, Bool.false_eq_true]
              split <;> intro _ <;> rfl
          | cons x rest =>
              simp only [step, prodStep, reduceIte, Bool.false_eq_true]
              split <;> intro hpd <;> simp at hpd
  | cons =>
      cases cd with
      | true => exact h
      | false =>
          cases qu with
          | nil => exact h
          | cons y r =>
              cases y <;>
                simp only [step, consStep, reduceIte, Bool.false_eq_true] <;>
                exact fun hpd => h hpd

/-- The queue occupancy never exceeds the capacity (a bounded queue: `cap ≠ 0`);
an unbounded queue (`cap = 0`) has no bound. -/
def QueueBound (cfg : Config α) : Prop :=
  cfg.cap = 0 ∨ cfg.queue.length ≤ cfg.cap

theorem step_queueBound (cfg : Config α) (t : Tid) (h : QueueBound cfg) :
    QueueBound (step cfg t) := by
  have hgrow : ∀ x : V α, putEnabled cfg = true →
      (cfg.cap = 0 ∨ (cfg.queue ++ [x]).length ≤ cfg.cap) := by
    intro x hput
    simp only [putEnabled, Bool.or_eq_true, beq_iff_eq, decide_eq_true_eq] at hput
    rcases hput with h0 | hlt
    · exact Or.inl h0
    · right
      simp only [List.length_append, List.length_cons, List.length_nil]
      omega
  cases t with
  | prod =>
      show QueueBound (prodStep cfg)
      cases hp : cfg.prodDone with
      | true => rw [prodStep_done cfg hp]; exact h
      | false =>
          cases hput : putEnabled cfg with
          | false => rw [prodStep_blocked cfg hput]; exact h
          | true =>
              cases hs : cfg.source with
              | nil =>
                  rw [prodStep_sentinel cfg hp hs hput]
                  exact hgrow none hput
              | cons x rest =>
                  rw [prodStep_pop cfg hp x rest hs hput]
                  exact hgrow x hput
  | cons =>
      show QueueBound (consStep cfg)
      cases hc : cfg.consDone with
      | true => rw [consStep_done cfg hc]; exact h
      | false =>
          cases hq : cfg.queue with
          | nil => rw [consStep_empty cfg hq]; exact h
          | cons y rest =>
              have hlen : rest.length ≤ cfg.queue.length := by
                rw [hq]; simp
              cases y with
              | none =>
                  rw [consStep_sentinel cfg hc rest hq]
                  rcases h with h0 | hle
                  · exact Or.inl h0
                  · exact Or.inr (le_trans hlen hle)
              | some a =>
                  rw [consStep_item cfg hc a rest hq]
                  rcases h with h0 | hle
                  · exact Or.inl h0
                  · exact Or.inr (le_trans hlen hle)

theorem run_queueBound (cfg : Config α) (sched : List Tid) (h : QueueBound cfg) :
    QueueBound (run cfg sched) := by
  induction sched generalizing cfg with
  | nil => exact h
  | cons t ts ih => exact ih _ (step_queueBound cfg t h)

theorem run_cap (cfg : Config α) (sched : List Tid) : (run cfg sched).cap = cfg.cap := by
  induction sched generalizing cfg with
  | nil => rfl
  | cons t ts ih => rw [run, List.foldl_cons, ← run, ih, step_cap]

theorem run_callerSource (cfg : Config α) (sched : List Tid) :
    (run cfg sched).callerSource = cfg.callerSource := by
  induction sched generalizing cfg with
  | nil => rfl
  | cons t ts ih => rw [run, List.foldl_cons, ← run, ih, step_callerSource]

theorem run_sourceDrained (cfg : Config α) (sched : List Tid) (h : SourceDrained cfg) :
    SourceDrained (run cfg sched) := by
  induction sched generalizing cfg with
  | nil => exact h
  | cons t ts ih => exact ih _ (step_sourceDrained cfg t h)

/-- With a bounded queue at capacity, a producer iteration makes no progress:
`put` blocks until the consumer vacates a slot. -/
theorem prodStep_full (cfg : Config α) (hcap : cfg.cap ≠ 0)
    (hfull : cfg.queue.length = cfg.cap) : prodStep cfg = cfg := by
  apply prodStep_blocked
  simp [putEnabled, hcap, hfull]

/-- Heterogeneous (non-`None`) Python payload values: integers, strings,
booleans, exact stand-ins for floats, and nested containers. -/
inductive PyVal where
  | pyInt (n : Int)
  | pyStr (s : String)
  | pyBool (b : Bool)
  | pyFloat (q : ℚ)
  | pyList (l : List PyVal)

/-- C1: as stated ("for every finite source sequence S") the claim is false:
the code's sentinel is Python's `None`, so a source containing `None` loses its
tail — here `S = [some 0, none]` with capacity 2 reaches completion with
`destination = [some 0] ≠ S`. -/
theorem none_item_breaks_delivery :
    Completed (run (init ([some 0, none] : List (V Nat)) 2)
        [.prod, .prod, .cons, .cons, .prod]) ∧
    (run (init ([some 0, none] : List (V Nat)) 2)
        [.prod, .prod, .cons, .cons, .prod]).dest ≠ [some 0, none] := by
  decide

/-- C1 (amended: the source contains no `None`, the sentinel value): for every
capacity `c ≥ 1` and every interleaving of the two threads, once both threads
have finished the destination equals the source exactly — same elements, same
order, no duplicates, no losses; moreover a completing interleaving exists. -/
theorem producer_consumer_delivers_source {α : Type} (S : List (V α)) (cap : Nat)
    (hS : none ∉ S) (hcap : 1 ≤ cap) :
    (∀ sched, Completed (run (init S cap) sched) → (run (init S cap) sched).dest = S) ∧
    (∃ sched, Completed (run (init S cap) sched) ∧ (run (init S cap) sched).dest = S) := by
  constructor
  · exact fun sched h => (pipeline_correct S cap sched hS h).1
  · refine ⟨pairSched (S.length + 1), ?_⟩
    rw [show init S cap = ⟨S, S, [], [], 0, 0, false, false, cap⟩ from rfl,
      pcDrain S hS S [] 0 0 cap]
    exact ⟨⟨rfl, rfl⟩, by simp⟩

theorem producer_consumer_delivers_source_witness :
    (run (init ([some 0, some 1] : List (V Nat)) 1)
        [.prod, .cons, .prod, .cons, .prod, .cons]).dest = [some 0, some 1] :=
  (producer_consumer_delivers_source [some 0, some 1] 1 (by decide) (by decide)).1
    _ (by decide)

/-- C2: as stated the claim is false: for `S = [none]`, a completed run has
`itemsProduced = 1 = len(S)` but `itemsConsumed = 0`, because the consumer
mistakes the produced `None` for the end-of-stream marker. -/
theorem none_item_breaks_counters :
    Completed (run (init ([none] : List (V Nat)) 3) [.prod, .prod, .cons]) ∧
    ¬((run (init ([none] : List (V Nat)) 3) [.prod, .prod, .cons]).consumed =
        ([none] : List (V Nat)).length) := by
  decide

/-- C2 (amended: the source contains no `None`): after any completed run,
`itemsProduced = itemsConsumed = len(S)`; in particular for the empty source
both counters are 0 and the destination is empty — a normal terminal path. -/
theorem counters_match_length {α : Type} (S : List (V α)) (cap : Nat)
    (hS : none ∉ S) (sched : List Tid)
    (h : Completed (run (init S cap) sched)) :
    (run (init S cap) sched).produced = S.length ∧
    (run (init S cap) sched).consumed = S.length ∧
    (S = [] → (run (init S cap) sched).dest = []) := by
  obtain ⟨hd, hp, hc, -, -⟩ := pipeline_correct S cap sched hS h
  exact ⟨hp, hc, fun h0 => by rw [hd, h0]⟩

theorem counters_match_length_witness :
    (run (init ([] : List (V Nat)) 10) [.prod, .cons]).produced = 0 ∧
    (run (init ([] : List (V Nat)) 10) [.prod, .cons]).consumed = 0 ∧
    (run (init ([] : List (V Nat)) 10) [.prod, .cons]).dest = [] := by
  obtain ⟨h1, h2, h3⟩ :=
    counters_match_length ([] : List (V Nat)) 10 (by decide) [.prod, .cons] (by decide)
  exact ⟨h1, h2, h3 rfl⟩

/-- C3: as stated the claim is false: the sentinel (`None`) is NOT
distinguishable from a null-like payload.  With the source
`[pyInt 1, None, pyInt 2]` the consumer mistakes the `None` item for the end
marker: the run completes with destination `[pyInt 1]` — the null item and the
following item are lost. -/
theorem none_payload_mistaken_for_sentinel :
    Completed (run (init [some (PyVal.pyInt 1), none, some (PyVal.pyInt 2)] 3)
        [.prod, .prod, .prod, .cons, .cons, .prod]) ∧
    (run (init [some (PyVal.pyInt 1), none, some (PyVal.pyInt 2)] 3)
        [.prod, .prod, .prod, .cons, .cons, .prod]).dest ≠
      [some (PyVal.pyInt 1), none, some (PyVal.pyInt 2)] := by
  refine ⟨⟨rfl, rfl⟩, ?_⟩
  intro h
  have h' : ([some (PyVal.pyInt 1)] : List (V PyVal)) =
      [some (PyVal.pyInt 1), none, some (PyVal.pyInt 2)] := h
  simp at h'

/-- C3 (amended: items other than `None`): the sentinel is distinguishable from
every non-`None` item, so heterogeneous items — ints, strings, floats,
booleans, nested containers, but not null — pass through unchanged and
unreordered, and are never mistaken for the end marker. -/
theorem sentinel_distinguishes_nonnull (S : List (V PyVal)) (cap : Nat)
    (hS : none ∉ S) (sched : List Tid)
    (h : Completed (run (init S cap) sched)) :
    (run (init S cap) sched).dest = S ∧
    (run (init S cap) sched).consumed = S.length :=
  ⟨(pipeline_correct S cap sched hS h).1,
   (pipeline_correct S cap sched hS h).2.2.1⟩

theorem sentinel_distinguishes_nonnull_witness :
    (run (init [some (PyVal.pyInt 7), some (PyVal.pyStr ("x")),
        some (PyVal.pyBool true), some (PyVal.pyFloat (3 / 2)),
        some (PyVal.pyList [PyVal.pyInt 1, PyVal.pyStr ("y")])] 2)
        (pairSched 6)).dest =
      [some (PyVal.pyInt 7), some (PyVal.pyStr ("x")),
        some (PyVal.pyBool true), some (PyVal.pyFloat (3 / 2)),
        some (PyVal.pyList [PyVal.pyInt 1, PyVal.pyStr ("y")])] :=
  (sentinel_distinguishes_nonnull
    [some (PyVal.pyInt 7), some (PyVal.pyStr ("x")),
      some (PyVal.pyBool true), some (PyVal.pyFloat (3 / 2)),
      some (PyVal.pyList [PyVal.pyInt 1, PyVal.pyStr ("y")])] 2
    (by simp) (pairSched 6) (by decide)).1

/-- C4: as stated the claim is false: `ProducerConsumer.__init__` performs no
validation at all, so constructing with `max_queue_size = 0` is not rejected —
and per Python's `queue.Queue` semantics `maxsize ≤ 0` means an UNBOUNDED
queue, so the pipeline even completes normally. -/
theorem capacity_zero_construction_succeeds :
    (init ([some 1, some 2] : List (V Nat)) 0).cap = 0 ∧
    Completed (run (init ([some 1, some 2] : List (V Nat)) 0)
        [.prod, .prod, .prod, .cons, .cons, .cons]) ∧
    (run (init ([some 1, some 2] : List (V Nat)) 0)
        [.prod, .prod, .prod, .cons, .cons, .cons]).dest = [some 1, some 2] := by
  decide

/-- C4 (amended): construction never rejects any capacity; a capacity of 0
yields an unbounded queue — `put` is always enabled — and a capacity-0 run
still completes, transferring every (non-`None`) item. -/
theorem capacity_zero_accepted_unbounded {α : Type} (S : List (V α))
    (hS : none ∉ S) :
    (∀ cfg : Config α, cfg.cap = 0 → putEnabled cfg = true) ∧
    Completed (run (init S 0) (pairSched (S.length + 1))) ∧
    (run (init S 0) (pairSched (S.length + 1))).dest = S := by
  refine ⟨fun cfg h0 => by simp [putEnabled, h0], ?_⟩
  rw [show init S 0 = ⟨S, S, [], [], 0, 0, false, false, 0⟩ from rfl,
    pcDrain S hS S [] 0 0 0]
  exact ⟨⟨rfl, rfl⟩, by simp⟩

theorem capacity_zero_accepted_unbounded_witness :
    putEnabled (⟨[], [], [some 9], [], 1, 0, false, false, 0⟩ : Config Nat) = true ∧
    (run (init ([some 5] : List (V Nat)) 0) (pairSched 2)).dest = [some 5] := by
  obtain ⟨h1, -, h3⟩ := capacity_zero_accepted_unbounded ([some 5] : List (V Nat)) (by decide)
  exact ⟨h1 _ rfl, h3⟩

/-- C5 (confirmed): for a capacity `c ≥ 1`, at every reachable instant of every
interleaving the queue holds between 0 and `c` items, and a producer iteration
at a full queue makes no progress at all (a `put` cannot complete until the
consumer vacates a slot). -/
theorem queue_occupancy_bounded {α : Type} (S : List (V α)) (cap : Nat)
    (hcap : 1 ≤ cap) :
    (∀ sched, (run (init S cap) sched).queue.length ≤ cap) ∧
    (∀ cfg : Config α, cfg.cap = cap → cfg.queue.length = cap → prodStep cfg = cfg) := by
  constructor
  · intro sched
    have h := run_queueBound (init S cap) sched (Or.inr (by simp [init]))
    have hc : (run (init S cap) sched).cap = cap := run_cap (init S cap) sched
    rcases h with h0 | hle
    · rw [hc] at h0
      omega
    · rwa [hc] at hle
  · intro cfg hcapEq hfull
    exact prodStep_full cfg (by omega) (by rw [hfull, hcapEq])

theorem queue_occupancy_bounded_witness :
    (run (init ([some 1, some 2, some 3] : List (V Nat)) 1)
        [.prod, .prod, .cons, .prod]).queue.length ≤ 1 ∧
    prodStep (⟨[], [some 9], [some 4], [], 1, 0, false, false, 1⟩ : Config Nat) =
      ⟨[], [some 9], [some 4], [], 1, 0, false, false, 1⟩ := by
  obtain ⟨h1, h2⟩ := queue_occupancy_bounded ([some 1, some 2, some 3] : List (V Nat)) 1
    (by decide)
  exact ⟨h1 _, h2 _ rfl rfl⟩

/-- C8 (confirmed): the constructor copies the caller's sequence
(`list(source_data)`); after any interleaving of any length the caller's
original list is unchanged, while the producer drains only the internal copy
(exhausted whenever the producer has finished). -/
theorem caller_list_untouched {α : Type} (S : List (V α)) (cap : Nat)
    (sched : List Tid) :
    (run (init S cap) sched).callerSource = S ∧
    ((run (init S cap) sched).prodDone = true → (run (init S cap) sched).source = []) := by
  constructor
  · rw [run_callerSource]
    rfl
  · exact run_sourceDrained (init S cap) sched (fun h => by simp [init] at h)

theorem caller_list_untouched_witness :
    (run (init ([some 3] : List (V Nat)) 2) (pairSched 2)).callerSource = [some 3] ∧
    (run (init ([some 3] : List (V Nat)) 2) (pairSched 2)).source = [] := by
  obtain ⟨h1, h2⟩ := caller_list_untouched ([some 3] : List (V Nat)) 2 (pairSched 2)
  exact ⟨h1, h2 (by decide)⟩

end PC

namespace Sales

/-- A CSV cell as produced by `csv.DictReader`: a string, or Python `None`
(the `restval` filler when a data row is shorter than the header). -/
abbrev Value := Option String

/-- The Python exception kinds relevant to `sales_analysis.py`. -/
inductive PyErr where
  | valueError
  | typeError
  | zeroDivisionError
deriving DecidableEq, Repr

/-- A loaded row of the sales CSV, restricted to the columns the queries
access (`record['...']`). -/
structure Row where
  product : Value
  category : Value
  region : Value
  date : Value
  quantity : Value
  sales : Value
deriving DecidableEq, Repr

/-- Python's `float(value)` on a `DictReader` cell: a missing cell (`None`)
raises `TypeError`, a string that is not a float literal raises `ValueError`.
The float-literal grammar itself is abstracted into the `parse` parameter;
floats are modelled as exact rationals. -/
def floatConv (parse : String → Option ℚ) : Value → Except PyErr ℚ
  | none => .error .typeError
  | some s =>
      match parse s with
      | some q => .ok q
      | none => .error .valueError

/-- `SalesAnalysis._to_numeric`, at exception level:
`try: return float(value) / except (ValueError, TypeError): return 0.0`.
Any error kind other than the two caught ones would propagate. -/
def toNumericE (parse : String → Option ℚ) (v : Value) : Except PyErr ℚ :=
  match floatConv parse v with
  | .ok q => .ok q
  | .error .valueError => .ok 0
  | .error .typeError => .ok 0
  | .error e => .error e

/-- The value `_to_numeric` evaluates to (it never raises, see
`toNumericE_ok`). -/
def toNumeric (parse : String → Option ℚ) (v : Value) : ℚ :=
  match floatConv parse v with
  | .ok q => q
  | .error _ => 0

theorem toNumericE_ok (parse : String → Option ℚ) (v : Value) :
    toNumericE parse v = .ok (toNumeric parse v) := by
  unfold toNumericE toNumeric
  cases h : floatConv parse v with
  | ok q => rfl
  | error e =>
      cases e with
      | valueError => rfl
      | typeError => rfl
      | zeroDivisionError =>
          exfalso
          unfold floatConv at h
          cases v with
          | none => simp at h
          | some s => cases hp : parse s <;> simp [hp] at h

theorem bind_ok {β γ : Type} (a : β) (f : β → Except PyErr γ) :
    (do
      let x ← Except.ok a
      f x) = f a := rfl

/-- `SalesAnalysis.total_revenue`:
`reduce(lambda acc, record: acc + self._to_numeric(record['total_sales']), self.data, 0.0)`. -/
def total_revenue (parse : String → Option ℚ) (data : List Row) : ℚ :=
  data.foldl (fun acc r => acc + toNumeric parse r.sales) 0

/-- The same `reduce`, tracking exceptions: each accumulation step calls
`_to_numeric`, whose exception (if any) would propagate out of `reduce`. -/
def sumSalesE (parse : String → Option ℚ) : List Row → ℚ → Except PyErr ℚ
  | [], acc => .ok acc
  | r :: rs, acc => do
      let q ← toNumericE parse r.sales
      sumSalesE parse rs (acc + q)

def total_revenueE (parse : String → Option ℚ) (data : List Row) : Except PyErr ℚ :=
  sumSalesE parse data 0

theorem sumSalesE_ok (parse : String → Option ℚ) :
    ∀ (l : List Row) (acc : ℚ),
      sumSalesE parse l acc =
        .ok (l.foldl (fun a r => a + toNumeric parse r.sales) acc) := by
  intro l
  induction l with
  | nil => intro acc; rfl
  | cons r rs ih =>
      intro acc
      show (do
        let q ← toNumericE parse r.sales
        sumSalesE parse rs (acc + q)) = _
      rw [toNumericE_ok, bind_ok, ih]
      rfl

/-- Python's `/` on rationals: raises `ZeroDivisionError` on a zero divisor,
otherwise returns the exact quotient. -/
def divE (a b : ℚ) : Except PyErr ℚ :=
  if b = 0 then .error .zeroDivisionError else .ok (a / b)

/-- `SalesAnalysis.average_transaction_value`: early-return `0.0` on an empty
dataset, otherwise the `reduce` total divided by `len(self.data)`. -/
def average_transaction_value (parse : String → Option ℚ) (data : List Row) : ℚ :=
  if data.isEmpty then 0
  else (data.foldl (fun acc r => acc + toNumeric parse r.sales) 0) / data.length

/-- Exception-level model of `average_transaction_value`: the division is
reached only on a non-empty dataset. -/
def average_transaction_valueE (parse : String → Option ℚ) (data : List Row) :
    Except PyErr ℚ :=
  if data.isEmpty then .ok 0
  else do
    let t ← sumSalesE parse data 0
    divE t data.length

theorem average_transaction_valueE_ok (parse : String → Option ℚ) (data : List Row) :
    average_transaction_valueE parse data = .ok (average_transaction_value parse data) := by
  unfold average_transaction_valueE average_transaction_value
  cases data with
  | nil => rfl
  | cons r rs =>
      rw [if_neg (by simp), if_neg (by simp), sumSalesE_ok, bind_ok]
      unfold divE
      have hne : (((r :: rs).length : ℚ)) ≠ 0 :=
        Nat.cast_ne_zero.mpr (by simp)
      rw [if_neg hne]

/-- The dictionary `quantity_statistics` returns: keys `min`, `max`,
`average`. -/
structure QStats where
  min : ℚ
  max : ℚ
  average : ℚ
deriving DecidableEq, Repr

/-- `SalesAnalysis.quantity_statistics`: extract the numeric quantities with
`map`/`_to_numeric`; an empty list short-circuits to `{min: 0, max: 0,
average: 0}`; otherwise the Python `reduce` without an initializer folds the
tail onto the head for min and max, and the average is the initialized
`reduce` sum divided by the length. -/
def quantity_statistics (parse : String → Option ℚ) (data : List Row) : QStats :=
  match data.map (fun r => toNumeric parse r.quantity) with
  | [] => ⟨0, 0, 0⟩
  | q :: qs =>
      ⟨qs.foldl (fun a b => if a < b then a else b) q,
       qs.foldl (fun a b => if a > b then a else b) q,
       ((q :: qs).foldl (fun acc x => acc + x) 0) / (q :: qs).length⟩

/-- `map(lambda record: self._to_numeric(record['quantity']), self.data)`,
tracking exceptions from `_to_numeric`. -/
def mapQtyE (parse : String → Option ℚ) : List Row → Except PyErr (List ℚ)
  | [] => .ok []
  | r :: rs => do
      let q ← toNumericE parse r.quantity
      let qs ← mapQtyE parse rs
      pure (q :: qs)

theorem mapQtyE_ok (parse : String → Option ℚ) (l : List Row) :
    mapQtyE parse l = .ok (l.map (fun r => toNumeric parse r.quantity)) := by
  induction l with
  | nil => rfl
  | cons r rs ih =>
      show (do
        let q ← toNumericE parse r.quantity
        let qs ← mapQtyE parse rs
        pure (q :: qs)) = _
      rw [toNumericE_ok, bind_ok, ih, bind_ok]
      rfl

/-- Exception-level model of `quantity_statistics`: the division is reached
only when the quantity list is non-empty. -/
def quantity_statisticsE (parse : String → Option ℚ) (data : List Row) :
    Except PyErr QStats := do
  let quantities ← mapQtyE parse data
  match quantities with
  | [] => pure ⟨0, 0, 0⟩
  | q :: qs => do
      let avg ← divE ((q :: qs).foldl (fun acc x => acc + x) 0) (q :: qs).length
      pure ⟨qs.foldl (fun a b => if a < b then a else b) q,
            qs.foldl (fun a b => if a > b then a else b) q, avg⟩

theorem quantity_statisticsE_ok (parse : String → Option ℚ) (data : List Row) :
    quantity_statisticsE parse data = .ok (quantity_statistics parse data) := by
  unfold quantity_statisticsE quantity_statistics
  rw [mapQtyE_ok, bind_ok]
  cases hq : data.map (fun r => toNumeric parse r.quantity) with
  | nil => rfl
  | cons q qs =>
      have hne : (((q :: qs).length : ℚ)) ≠ 0 :=
        Nat.cast_ne_zero.mpr (by simp)
      simp only [divE, hne, if_false, bind_ok, reduceIte]
      rfl

/-- Key comparison used to model Python's `sorted(key=itemgetter(k))` on
string keys: `some x ≤ some y` iff `x ≤ y` as strings; a missing (`None`) key
is ordered first.  (CPython would raise `TypeError` comparing `None` with
`str`; every consequence drawn from the sort below uses only that its output
is a permutation of its input, so the tie-break chosen here is irrelevant.) -/
def valLeB : Value → Value → Bool
  | none, _ => true
  | some _, none => false
  | some x, some y => x ≤ y

/-- `sorted(self.data, key=...)`: a comparison sort producing a permutation of
the data ordered by the key. -/
def pySorted (key : Row → Value) (data : List Row) : List Row :=
  List.insertionSort (fun r s => valLeB (key r) (key s) = true) data

theorem pySorted_perm (key : Row → Value) (data : List Row) :
    (pySorted key data).Perm data :=
  List.perm_insertionSort _ data

theorem dropWhile_length_le {β : Type} (p : β → Bool) (l : List β) :
    (l.dropWhile p).length ≤ l.length := by
  induction l with
  | nil => simp [List.dropWhile]
  | cons a l ih =>
      rw [List.dropWhile_cons]
      split
      · exact le_trans ih (by simp)
      · simp

/-- `itertools.groupby(sorted_data, key=...)`: splits a list into maximal runs
of adjacent elements with `==`-equal keys, pairing each run with its key. -/
def pyGroupBy (key : Row → Value) : List Row → List (Value × List Row)
  | [] => []
  | r :: rs =>
      (key r, r :: rs.takeWhile (fun x => key x == key r)) ::
        pyGroupBy key (rs.dropWhile (fun x => key x == key r))
termination_by l => l.length
decreasing_by
  simp only [List.length_cons]
  exact Nat.lt_succ_of_le (dropWhile_length_le _ rs)

theorem pyGroupBy_flatten_aux (key : Row → Value) :
    ∀ (n : Nat) (l : List Row), l.length ≤ n →
      ((pyGroupBy key l).map Prod.snd).flatten = l := by
  intro n
  induction n with
  | zero =>
      intro l hl
      have : l = [] := List.eq_nil_of_length_eq_zero (Nat.le_zero.mp hl)
      subst this
      simp [pyGroupBy]
  | succ n ih =>
      intro l hl
      cases l with
      | nil => simp [pyGroupBy]
      | cons r rs =>
          rw [pyGroupBy]
          simp only [List.map_cons, List.flatten_cons]
          have hlen : (rs.dropWhile (fun x => key x == key r)).length ≤ n := by
            have h1 := dropWhile_length_le (fun x => key x == key r) rs
            simp only [List.length_cons, Nat.succ_le_succ_iff] at hl
            omega
          rw [ih _ hlen]
          simp only [List.cons_append, List.takeWhile_append_dropWhile]

/-- The groups of `itertools.groupby` concatenate back to the grouped list. -/
theorem pyGroupBy_flatten (key : Row → Value) (l : List Row) :
    ((pyGroupBy key l).map Prod.snd).flatten = l :=
  pyGroupBy_flatten_aux key l.length l le_rfl

/-- The dict comprehension shared by `revenue_by_category` /
`revenue_by_region` (they differ only in the grouping key): sort by the key,
group adjacent equal keys, and `reduce` each group's `total_sales` with
`_to_numeric`, starting from `0.0`. -/
def groupSums (parse : String → Option ℚ) (key : Row → Value) (data : List Row) :
    List (Value × ℚ) :=
  (pyGroupBy key (pySorted key data)).map
    (fun p => (p.1, p.2.foldl (fun acc r => acc + toNumeric parse r.sales) 0))

/-- `SalesAnalysis.revenue_by_category`. -/
def revenue_by_category (parse : String → Option ℚ) (data : List Row) :
    List (Value × ℚ) :=
  groupSums parse (fun r => r.category) data

/-- `SalesAnalysis.revenue_by_region`. -/
def revenue_by_region (parse : String → Option ℚ) (data : List Row) :
    List (Value × ℚ) :=
  groupSums parse (fun r => r.region) data

theorem foldl_add_eq_sum (parse : String → Option ℚ) (l : List Row) (a : ℚ) :
    l.foldl (fun acc r => acc + toNumeric parse r.sales) a =
      a + (l.map (fun r => toNumeric parse r.sales)).sum := by
  induction l generalizing a with
  | nil => simp
  | cons r rs ih =>
      rw [List.foldl_cons, ih]
      simp [add_assoc]

/-- Sum of the per-group revenue totals: equals the grand total, because the
groups flatten back to the sorted data, which is a permutation of the data. -/
theorem groupSums_total (parse : String → Option ℚ) (key : Row → Value)
    (data : List Row) :
    ((groupSums parse key data).map Prod.snd).sum = total_revenue parse data := by
  unfold groupSums total_revenue
  rw [List.map_map, foldl_add_eq_sum, zero_add]
  have hcomp : (Prod.snd ∘ fun p : Value × List Row =>
      (p.1, p.2.foldl (fun acc r => acc + toNumeric parse r.sales) 0)) =
      fun p : Value × List Row =>
        p.2.foldl (fun acc r => acc + toNumeric parse r.sales) 0 := rfl
  rw [hcomp]
  have h1 : ∀ gs : List (Value × List Row),
      (gs.map (fun p =>
        p.2.foldl (fun acc r => acc + toNumeric parse r.sales) 0)).sum =
      ((gs.map Prod.snd).flatten.map (fun r => toNumeric parse r.sales)).sum := by
    intro gs
    induction gs with
    | nil => simp
    | cons g gs ih =>
        simp only [List.map_cons, List.sum_cons, List.flatten_cons,
          List.map_append, List.sum_append, foldl_add_eq_sum, zero_add] at ih ⊢
        rw [ih]
  rw [h1, pyGroupBy_flatten]
  exact ((pySorted_perm key data).map _).sum_eq

/-- Exception-level counterpart of `valLeB`: the comparison CPython's sort
performs on two keys.  Two string keys compare fine; any comparison involving
`None` raises `TypeError` (`'<' not supported between instances of
'NoneType' and 'str'`). -/
def valLeE : Value → Value → Except PyErr Bool
  | some x, some y => .ok (x ≤ y)
  | _, _ => .error .typeError

theorem valLeE_some (x y : String) :
    valLeE (some x) (some y) = .ok (decide (x ≤ y)) := rfl

/-- One insertion step of the exception-level comparison sort: the first key
comparison that raises aborts the whole `sorted` call. -/
def orderedInsertE (key : Row → Value) (a : Row) :
    List Row → Except PyErr (List Row)
  | [] => .ok [a]
  | b :: l => do
      let c ← valLeE (key a) (key b)
      if c then pure (a :: b :: l)
      else do
        let rest ← orderedInsertE key a l
        pure (b :: rest)

/-- Exception-level model of `sorted(self.data, key=itemgetter(k))`: a
comparison sort over `valLeE`.  On a list whose keys are all strings it never
raises; with both a `None` key and a string key present, some cross comparison
(hence a `TypeError`) is unavoidable for any comparison sort, CPython's
included. -/
def pySortedE (key : Row → Value) : List Row → Except PyErr (List Row)
  | [] => .ok []
  | a :: l => do
      let l' ← pySortedE key l
      orderedInsertE key a l'

theorem orderedInsertE_ok (key : Row → Value) (a : Row)
    (ha : (key a).isSome = true) :
    ∀ l : List Row, (∀ x ∈ l, (key x).isSome = true) →
      orderedInsertE key a l =
        .ok (List.orderedInsert (fun r s => valLeB (key r) (key s) = true) a l) := by
  intro l
  induction l with
  | nil => intro _; rfl
  | cons b l ih =>
      intro hl
      obtain ⟨xa, hxa⟩ := Option.isSome_iff_exists.mp ha
      obtain ⟨xb, hxb⟩ := Option.isSome_iff_exists.mp (hl b (List.mem_cons_self b l))
      show (do
        let c ← valLeE (key a) (key b)
        if c then pure (a :: b :: l)
        else do
          let rest ← orderedInsertE key a l
          pure (b :: rest)) = _
      rw [hxa, hxb, valLeE_some, bind_ok,
        ih (fun x hx => hl x (List.mem_cons_of_mem b hx))]
      simp only [List.orderedInsert, hxa, hxb, valLeB]
      by_cases hc : xa ≤ xb
      · simp [hc]
        rfl
      · simp [hc, bind_ok]

theorem pySortedE_ok (key : Row → Value) :
    ∀ data : List Row, (∀ x ∈ data, (key x).isSome = true) →
      pySortedE key data = .ok (pySorted key data) := by
  intro data
  induction data with
  | nil => intro _; rfl
  | cons a l ih =>
      intro h
      show (do
        let l' ← pySortedE key l
        orderedInsertE key a l') = _
      rw [ih (fun x hx => h x (List.mem_cons_of_mem a hx)), bind_ok]
      have hmem : ∀ x ∈ pySorted key l, (key x).isSome = true := fun x hx =>
        h x (List.mem_cons_of_mem a ((pySorted_perm key l).mem_iff.mp hx))
      rw [orderedInsertE_ok key a (h a (List.mem_cons_self a l)) _ hmem]
      rfl

/-- The per-group `reduce` of the dict comprehension, tracking exceptions from
`_to_numeric` (grouping itself compares keys with `==`, which cannot raise). -/
def groupAccE (parse : String → Option ℚ) :
    List (Value × List Row) → Except PyErr (List (Value × ℚ))
  | [] => .ok []
  | p :: gs => do
      let s ← sumSalesE parse p.2 0
      let rest ← groupAccE parse gs
      pure ((p.1, s) :: rest)

theorem groupAccE_ok (parse : String → Option ℚ) (gs : List (Value × List Row)) :
    groupAccE parse gs =
      .ok (gs.map (fun p =>
        (p.1, p.2.foldl (fun acc r => acc + toNumeric parse r.sales) 0))) := by
  induction gs with
  | nil => rfl
  | cons p gs ih =>
      show (do
        let s ← sumSalesE parse p.2 0
        let rest ← groupAccE parse gs
        pure ((p.1, s) :: rest)) = _
      rw [sumSalesE_ok, bind_ok, ih, bind_ok]
      rfl

/-- Exception-level model of `revenue_by_category` / `revenue_by_region`:
first the key sort (which can raise `TypeError`), then grouping and the
per-group `reduce` (which cannot). -/
def groupSumsE (parse : String → Option ℚ) (key : Row → Value) (data : List Row) :
    Except PyErr (List (Value × ℚ)) := do
  let sd ← pySortedE key data
  groupAccE parse (pyGroupBy key sd)

def revenue_by_categoryE (parse : String → Option ℚ) (data : List Row) :
    Except PyErr (List (Value × ℚ)) :=
  groupSumsE parse (fun r => r.category) data

def revenue_by_regionE (parse : String → Option ℚ) (data : List Row) :
    Except PyErr (List (Value × ℚ)) :=
  groupSumsE parse (fun r => r.region) data

/-- When every row's grouping key is present (a string), the group-sum query
completes with the pure result: no comparison raises, and the numeric parsing
inside the groups never raises at all. -/
theorem groupSumsE_ok (parse : String → Option ℚ) (key : Row → Value)
    (data : List Row) (h : ∀ x ∈ data, (key x).isSome = true) :
    groupSumsE parse key data = .ok (groupSums parse key data) := by
  unfold groupSumsE groupSums
  rw [pySortedE_ok key data h, bind_ok, groupAccE_ok]

/-- `SalesAnalysis.filter_high_value_transactions`:
`filter(lambda record: self._to_numeric(record['total_sales']) >= threshold,
self.data)` — kept rows are exactly those whose parsed total is `≥ threshold`,
in original order, each row unmodified. -/
def filter_high_value_transactions (parse : String → Option ℚ) (data : List Row)
    (threshold : ℚ) : List Row :=
  data.filter (fun r => threshold ≤ toNumeric parse r.sales)

/-- Exception-level model of the same filter: the predicate calls
`_to_numeric`, whose exception (if any) would propagate out of `filter`. -/
def filterHighE (parse : String → Option ℚ) (threshold : ℚ) :
    List Row → Except PyErr (List Row)
  | [] => .ok []
  | r :: rs => do
      let q ← toNumericE parse r.sales
      let rest ← filterHighE parse threshold rs
      pure (if threshold ≤ q then r :: rest else rest)

theorem filterHighE_ok (parse : String → Option ℚ) (threshold : ℚ) (data : List Row) :
    filterHighE parse threshold data =
      .ok (filter_high_value_transactions parse data threshold) := by
  induction data with
  | nil => rfl
  | cons r rs ih =>
      show (do
        let q ← toNumericE parse r.sales
        let rest ← filterHighE parse threshold rs
        pure (if threshold ≤ q then r :: rest else rest)) = _
      rw [toNumericE_ok, bind_ok, ih, bind_ok]
      unfold filter_high_value_transactions
      rw [List.filter_cons]
      by_cases hle : threshold ≤ toNumeric parse r.sales
      · rw [if_pos hle, if_pos (by simpa using hle)]
        rfl
      · rw [if_neg hle, if_neg (by simpa using hle)]
        rfl

/-- C6: as stated ("every aggregate query ... completes") the claim is false:
on a loadable dataset where one row's `category` cell is missing
(`DictReader`'s `None` filler) and another's is a string, the group-sum query
signals an error — `sorted(self.data, key=itemgetter('category'))` compares
`None` with `str` and raises `TypeError`.  The failure comes from the key
sort, not from numeric parsing. -/
theorem mixed_key_group_sum_raises :
    revenue_by_categoryE (fun _ => none)
      [⟨none, none, none, none, none, none⟩,
       ⟨none, some ("A"), none, none, none, none⟩] = .error .typeError := rfl

/-- C6 (amended: the group-sum queries complete when every row's grouping key
is present): `_to_numeric` never raises — it returns the parsed number, and
0.0 whenever `float()` fails (non-numeric string → `ValueError`, missing value
→ `TypeError`, both caught) — and under this parse-or-zero policy the grand
total, the mean, the quantity statistics and the threshold filter complete on
every dataset; the group sums (`revenue_by_category` / `revenue_by_region`)
complete on every dataset whose grouping keys are all present, numeric parse
failures never preventing completion. -/
theorem to_numeric_never_raises (parse : String → Option ℚ) :
    (∀ v : Value, toNumericE parse v = .ok (toNumeric parse v)) ∧
    (∀ v : Value, (floatConv parse v).toOption = none → toNumeric parse v = 0) ∧
    (∀ data : List Row, total_revenueE parse data = .ok (total_revenue parse data)) ∧
    (∀ data : List Row,
      average_transaction_valueE parse data = .ok (average_transaction_value parse data)) ∧
    (∀ data : List Row,
      quantity_statisticsE parse data = .ok (quantity_statistics parse data)) ∧
    (∀ (data : List Row) (t : ℚ),
      filterHighE parse t data = .ok (filter_high_value_transactions parse data t)) ∧
    (∀ data : List Row, (∀ r ∈ data, r.category.isSome = true) →
      revenue_by_categoryE parse data = .ok (revenue_by_category parse data)) ∧
    (∀ data : List Row, (∀ r ∈ data, r.region.isSome = true) →
      revenue_by_regionE parse data = .ok (revenue_by_region parse data)) := by
  refine ⟨toNumericE_ok parse, ?_, ?_, average_transaction_valueE_ok parse,
    quantity_statisticsE_ok parse, fun data t => filterHighE_ok parse t data,
    fun data h => groupSumsE_ok parse (fun r => r.category) data h,
    fun data h => groupSumsE_ok parse (fun r => r.region) data h⟩
  · intro v h
    unfold toNumeric
    cases hf : floatConv parse v with
    | ok q =>
        rw [hf] at h
        simp [Except.toOption] at h
    | error e => rfl
  · intro data
    exact sumSalesE_ok parse data 0

theorem to_numeric_never_raises_witness :
    toNumericE (fun _ => none) (some ("abc")) = .ok (toNumeric (fun _ => none) (some ("abc"))) ∧
    toNumeric (fun _ => none) (some ("abc")) = 0 ∧
    toNumeric (fun _ => none) none = 0 ∧
    revenue_by_categoryE (fun _ => none)
        [⟨none, some ("A"), none, none, none, none⟩,
         ⟨none, some ("B"), none, none, none, none⟩] =
      .ok (revenue_by_category (fun _ => none)
        [⟨none, some ("A"), none, none, none, none⟩,
         ⟨none, some ("B"), none, none, none, none⟩]) := by
  obtain ⟨h1, h2, -, -, -, -, h7, -⟩ := to_numeric_never_raises (fun _ => none)
  refine ⟨h1 _, h2 _ rfl, h2 _ rfl, h7 _ ?_⟩
  intro r hr
  simp only [List.mem_cons, List.not_mem_nil, or_false] at hr
  rcases hr with rfl | rfl <;> rfl

/-- C7 (confirmed, with tolerance 0: the numeric model is exact rationals, so
"within floating-point tolerance" is met exactly): the per-category totals of
`revenue_by_category` sum to `total_revenue`, and likewise the per-region
totals of `revenue_by_region`, for every dataset. -/
theorem revenue_partition (parse : String → Option ℚ) (data : List Row) :
    ((revenue_by_category parse data).map Prod.snd).sum = total_revenue parse data ∧
    ((revenue_by_region parse data).map Prod.snd).sum = total_revenue parse data :=
  ⟨groupSums_total parse (fun r => r.category) data,
   groupSums_total parse (fun r => r.region) data⟩

/-- C9 (confirmed): on the empty dataset both mean-computing queries
short-circuit before any division — the exception-level models return `ok`
(so no `ZeroDivisionError` is ever raised there), `average_transaction_value`
returns 0.0 and `quantity_statistics` returns `{min: 0, max: 0, average: 0}`. -/
theorem empty_dataset_no_division (parse : String → Option ℚ) :
    average_transaction_valueE parse [] = .ok 0 ∧
    quantity_statisticsE parse [] = .ok ⟨0, 0, 0⟩ ∧
    average_transaction_value parse [] = 0 ∧
    quantity_statistics parse [] = ⟨0, 0, 0⟩ :=
  ⟨rfl, rfl, rfl, rfl⟩

/-- C10 (confirmed): `filter_high_value_transactions(t)` returns exactly the
rows whose parsed `total_sales` is `≥ t` (the code's `>=` comparison): the
result is a sublist of the dataset (original row order, each row the
unmodified record), a row is in the result iff it is a dataset row meeting the
threshold, and each row is kept with its exact multiplicity. -/
theorem filter_high_value_exact (parse : String → Option ℚ) (data : List Row)
    (t : ℚ) :
    (filter_high_value_transactions parse data t).Sublist data ∧
    (∀ r : Row, r ∈ filter_high_value_transactions parse data t ↔
        (r ∈ data ∧ t ≤ toNumeric parse r.sales)) ∧
    (∀ r : Row, (filter_high_value_transactions parse data t).count r =
        if t ≤ toNumeric parse r.sales then data.count r else 0) := by
  refine ⟨List.filter_sublist data, ?_, ?_⟩
  · intro r
    simp [filter_high_value_transactions, List.mem_filter]
  · intro r
    by_cases h : t ≤ toNumeric parse r.sales
    · rw [if_pos h]
      exact List.count_filter (by simpa using h)
    · rw [if_neg h]
      refine List.count_eq_zero.mpr ?_
      intro hmem
      rw [filter_high_value_transactions, List.mem_filter] at hmem
      exact h (by simpa using hmem.2)

end Sales
